import Mathlib

/-!
Shallow embedding of the core of the RAG backend:

* `src/backend/src/documents.py` — `DocumentStore.process_and_store_document`
  (ingestion state machine with post-write verification);
* `src/backend/src/rag_backend/database.py` — `VectorDatabase.add_documents`,
  `get_document_chunks`, `query` (metadata-filtered store access);
* `src/backend/src/rag_backend/search.py` — `SearchEngine.perform_similarity_search`,
  `_get_cache_key`, `rerank_results`;
* `src/backend/src/rag_backend/app.py` — `RAGApplication._balance_results`.

Modelling conventions: Python floats are modelled as exact rationals (`ℚ`),
chunk ids as naturals, the Chroma collection as a list of records, and the
LLM scorer as a function from the batch of uncached texts to an optional
score list (`none` models an exception or unparseable output).  Python's
`list.sort`/`sorted` (a stable sort) is modelled by `List.insertionSort`,
which is likewise stable.  Python dict iteration order (insertion order) is
modelled explicitly where it matters.
-/

/-- Python `str.lower()` restricted to the character-level case folding Lean
provides; used on queries and title filters. -/
def pyLower (s : String) : String := String.mk (s.data.map Char.toLower)

/-- Python `str.strip()`: drop whitespace from both ends of a string. -/
def pyStrip (s : String) : String :=
  String.mk (((s.data.dropWhile Char.isWhitespace).reverse.dropWhile Char.isWhitespace).reverse)

/-- Chunk metadata exactly as `VectorDatabase.add_documents` persists it
(`database.py` lines 138-147): `source_name`, `title`, `chunk_index`,
`total_chunks`, `section_title`, `section_type`, `file_type`, and the chunk
`text` duplicated into metadata. -/
structure ChunkMeta where
  source_name : String
  title : String
  chunk_index : Int
  total_chunks : Int
  section_title : String
  section_type : String
  file_type : String
  text : String
  deriving DecidableEq

/-- A stored record: Chroma id plus its metadata (the record's document text
equals `meta.text`, as `add_documents` stores the same string in both). -/
structure ChunkRecord where
  id : Nat
  meta : ChunkMeta
  deriving DecidableEq

/-- The Chroma collection, as a list of records. -/
abbrev Store := List ChunkRecord

/-- Ordering used by `get_document_chunks`: ascending `chunk_index`. -/
def chunkIdxLe (a b : ChunkRecord) : Prop := a.meta.chunk_index ≤ b.meta.chunk_index

instance : DecidableRel chunkIdxLe := fun a b => by
  unfold chunkIdxLe; infer_instance

instance : IsTotal ChunkRecord chunkIdxLe :=
  ⟨fun a b => Int.le_total a.meta.chunk_index b.meta.chunk_index⟩

instance : IsTrans ChunkRecord chunkIdxLe :=
  ⟨fun _ _ _ hab hbc => le_trans hab hbc⟩

/-- Model of `VectorDatabase.get_document_chunks`: the records stored under
`source_name`, sorted (stably) by chunk index. -/
def get_document_chunks (source_name : String) (store : Store) : List ChunkRecord :=
  List.insertionSort chunkIdxLe (store.filter (fun r => r.meta.source_name = source_name))

/-- Model of `VectorDatabase._get_existing_doc_ids` followed by `collection.delete`:
remove every record whose id is the id of a record stored under
`source_name`. -/
def deleteBySourceIds (source_name : String) (store : Store) : Store :=
  let existing := (store.filter (fun r => r.meta.source_name = source_name)).map (fun r => r.id)
  store.filter (fun r => ¬ r.id ∈ existing)

/-- The distinct source names of a batch in first-occurrence order — Python
dict insertion order in `add_documents`' `docs_by_source` grouping. -/
def firstOccurrenceSources (docs : List ChunkRecord) : List String :=
  docs.foldl (fun acc d => if d.meta.source_name ∈ acc then acc else acc ++ [d.meta.source_name]) []

/-- Model of `VectorDatabase._validate_chunk_consistency`: within every source group
all `total_chunks` values must equal the group head's value. -/
def validateChunkConsistency (docs : List ChunkRecord) : Bool :=
  (firstOccurrenceSources docs).all (fun s =>
    match docs.filter (fun d => d.meta.source_name = s) with
    | [] => true
    | g :: gs => (g :: gs).all (fun d => d.meta.total_chunks == g.meta.total_chunks))

/-- Model of `VectorDatabase.add_documents`: no-op on an empty batch; raise
(modelled as `none`) on inconsistent `total_chunks`; otherwise, per source in
first-occurrence order, delete the records already stored under that source
and append the batch's records for it. -/
def add_documents (docs : List ChunkRecord) (store : Store) : Option Store :=
  if docs.isEmpty then some store
  else if validateChunkConsistency docs then
    some ((firstOccurrenceSources docs).foldl
      (fun st s => deleteBySourceIds s st ++ docs.filter (fun d => d.meta.source_name = s)) store)
  else none

/-- The `ProcessingState.status` values. -/
inductive Status
  | processing
  | completed
  | error
  deriving DecidableEq

/-- The loop in `process_and_store_document` that overwrites each chunk's
`source_name` with the upload's filename. -/
def setSource (filename : String) (chunks : List ChunkRecord) : List ChunkRecord :=
  chunks.map (fun c => { c with meta := { c.meta with source_name := filename } })

/-- Model of `sorted(int(chunk.get('chunk_index', -1)) for chunk in stored_chunks)`. -/
def sortedIndices (stored : List ChunkRecord) : List Int :=
  List.insertionSort (fun a b : Int => a ≤ b) (stored.map (fun c => c.meta.chunk_index))

/-- Model of `list(range(len(chunks)))`, as integers. -/
def expectedIndices (n : Nat) : List Int := (List.range n).map (fun i => (i : Int))

/-- The verification pass of `process_and_store_document` (documents.py
lines 323-353) applied to the re-read chunks, with `n` the number of chunks
just written: empty re-read, count mismatch, non-contiguous indices, or a
`total_chunks` mismatch each raise (state `error`); otherwise `completed`. -/
def verifyStoredStatus (n : Nat) (stored : List ChunkRecord) : Status :=
  if stored.isEmpty then .error
  else if stored.length ≠ n then .error
  else if sortedIndices stored ≠ expectedIndices n then .error
  else if stored.any (fun c => c.meta.total_chunks ≠ (n : Int)) then .error
  else .completed

/-- Model of `DocumentStore.process_and_store_document`, from the point where the
chunker has produced `chunks`: fail fast on zero chunks; stamp the filename
as `source_name`; delete existing records for the source; insert via
`add_documents` (whose `ValueError` is modelled by `none`); re-read and run
the verification pass.  Embedding generation is positional plumbing with no
effect on the stored fields and is not modelled separately. -/
def process_and_store_document (filename : String) (chunks : List ChunkRecord) (store : Store) :
    Status × Store :=
  if chunks.isEmpty then (.error, store)
  else
    let docs := setSource filename chunks
    let store1 := deleteBySourceIds filename store
    match add_documents docs store1 with
    | none => (.error, store1)
    | some store2 => (verifyStoredStatus docs.length (get_document_chunks filename store2), store2)

/-- A similarity-search candidate: one row of the parallel
`ids`/`distances`/`metadatas` arrays the vector store returns. -/
structure Candidate where
  id : Nat
  distance : ℚ
  metadata : ChunkMeta
  deriving DecidableEq

/-- The sort key of `perform_similarity_search` (search.py line 126):
ascending distance, ties broken by ascending id. -/
def candLe (a b : Candidate) : Prop :=
  a.distance < b.distance ∨ (a.distance = b.distance ∧ a.id ≤ b.id)

instance : DecidableRel candLe := fun a b => by
  unfold candLe; infer_instance

instance : IsTotal Candidate candLe := by
  constructor
  intro a b
  rcases lt_trichotomy a.distance b.distance with h | h | h
  · exact Or.inl (Or.inl h)
  · rcases Nat.le_total a.id b.id with h2 | h2
    · exact Or.inl (Or.inr ⟨h, h2⟩)
    · exact Or.inr (Or.inr ⟨h.symm, h2⟩)
  · exact Or.inr (Or.inl h)

instance : IsTrans Candidate candLe := by
  constructor
  intro a b c hab hbc
  rcases hab with hab | ⟨hab, hab2⟩
  · rcases hbc with hbc | ⟨hbc, _⟩
    · exact Or.inl (hab.trans hbc)
    · exact Or.inl (hbc ▸ hab)
  · rcases hbc with hbc | ⟨hbc, hbc2⟩
    · exact Or.inl (hab ▸ hbc)
    · exact Or.inr ⟨hab.trans hbc, hab2.trans hbc2⟩

/-- Model of `SearchEngine.perform_similarity_search`, restricted to its ordering
step (search.py lines 124-140): the candidate rows returned by the store are
stably sorted by `(distance, id)`.  The surrounding numpy/list conversions
and the empty-result early return do not affect the row multiset. -/
def perform_similarity_search (rows : List Candidate) : List Candidate :=
  List.insertionSort candLe rows

/-- The in-process LLM relevance cache (`SearchEngine._relevance_cache`),
most recent write first. -/
abbrev RelevanceCache := List (String × ℚ)

/-- Python dict lookup on the cache: the most recent binding of the key. -/
def cacheGet (cache : RelevanceCache) (k : String) : Option ℚ :=
  match cache with
  | [] => none
  | (k2, v) :: rest => if k = k2 then some v else cacheGet rest k

/-- Model of `SearchEngine._get_cache_key`:
`f"{query.strip().lower()}|||{text.strip()}"`. -/
def get_cache_key (query text : String) : String :=
  pyLower (pyStrip query) ++ "|||" ++ pyStrip text

/-- One entry of the list `rerank_results` returns. -/
structure SearchResult where
  id : Nat
  text : String
  metadata : ChunkMeta
  similarity_score : ℚ
  relevance_score : ℚ
  combined_score : ℚ
  deriving DecidableEq

/-- A candidate whose cache key misses the relevance cache. -/
def isUncached (cache : RelevanceCache) (query : String) (c : Candidate) : Bool :=
  (cacheGet cache (get_cache_key query c.metadata.text)).isNone

/-- The relevance-score array after a successful scorer call: cached
candidates keep their cached score (looked up in the pre-call cache),
uncached candidates consume the scorer's scores in order. -/
def fillScores (cache : RelevanceCache) (query : String) : List Candidate → List ℚ → List ℚ
  | [], _ => []
  | c :: rest, scores =>
    match cacheGet cache (get_cache_key query c.metadata.text) with
    | some v => v :: fillScores cache query rest scores
    | none =>
      match scores with
      | [] => []
      | s :: ss => s :: fillScores cache query rest ss

/-- The `(cache_key, score)` writes a successful scorer call performs, in
loop order. -/
def newCachePairs (cache : RelevanceCache) (query : String) :
    List Candidate → List ℚ → List (String × ℚ)
  | [], _ => []
  | c :: rest, scores =>
    match cacheGet cache (get_cache_key query c.metadata.text) with
    | some _ => newCachePairs cache query rest scores
    | none =>
      match scores with
      | [] => []
      | s :: ss => (get_cache_key query c.metadata.text, s) :: newCachePairs cache query rest ss

/-- Apply dict writes in order; a later write to the same key shadows an
earlier one. -/
def applyPairs (pairs : List (String × ℚ)) (cache : RelevanceCache) : RelevanceCache :=
  pairs.foldl (fun c kv => kv :: c) cache

/-- The relevance-score array on scorer failure or score-count mismatch:
cached candidates keep their cached score, uncached ones fall back to
`1 - distance`. -/
def fallbackScores (cache : RelevanceCache) (query : String) (cands : List Candidate) : List ℚ :=
  cands.map (fun c =>
    match cacheGet cache (get_cache_key query c.metadata.text) with
    | some v => v
    | none => 1 - c.distance)

/-- Model of `max(distances) if distances else 1.0`. -/
def maxDistance : List Candidate → ℚ
  | [] => 1
  | c :: rest => rest.foldl (fun m x => max m x.distance) c.distance

/-- One result record of the combine loop (search.py lines 243-258). -/
def mkSearchResult (maxd : ℚ) (c : Candidate) (rel : ℚ) : SearchResult :=
  { id := c.id
    text := c.metadata.text
    metadata := c.metadata
    similarity_score := 1 - c.distance
    relevance_score := rel
    combined_score := 0.4 * (1 - c.distance / maxd) + 0.6 * (rel / 10) }

/-- The combine loop over the candidate/relevance arrays. -/
def buildResults (cands : List Candidate) (rels : List ℚ) (maxd : ℚ) : List SearchResult :=
  (cands.zip rels).map (fun p => mkSearchResult maxd p.1 p.2)

/-- The final sort key of `rerank_results` (search.py line 267):
`(-combined_score, id)` — descending combined score, ties broken by
ascending id. -/
def resultLe (a b : SearchResult) : Prop :=
  b.combined_score < a.combined_score ∨ (a.combined_score = b.combined_score ∧ a.id ≤ b.id)

instance : DecidableRel resultLe := fun a b => by
  unfold resultLe; infer_instance

instance : IsTotal SearchResult resultLe := by
  constructor
  intro a b
  rcases lt_trichotomy a.combined_score b.combined_score with h | h | h
  · exact Or.inr (Or.inl h)
  · rcases Nat.le_total a.id b.id with h2 | h2
    · exact Or.inl (Or.inr ⟨h, h2⟩)
    · exact Or.inr (Or.inr ⟨h.symm, h2⟩)
  · exact Or.inl (Or.inl h)

instance : IsTrans SearchResult resultLe := by
  constructor
  intro a b c hab hbc
  rcases hab with hab | ⟨hab, hab2⟩
  · rcases hbc with hbc | ⟨hbc, _⟩
    · exact Or.inl (hbc.trans hab)
    · exact Or.inl (hbc ▸ hab)
  · rcases hbc with hbc | ⟨hbc, hbc2⟩
    · exact Or.inl (hab ▸ hbc)
    · exact Or.inr ⟨hab.trans hbc, hab2.trans hbc2⟩

/-- Model of `SearchEngine.rerank_results` (search.py lines 148-274).  The `scorer` is
the LLM collaborator applied to the batch of uncached texts; `none` models
an exception or unparseable output.  The returned triple is the result
list, the cache after the call, and whether the scorer was invoked; the
outer `none` models the `ZeroDivisionError` Python raises in the combine
loop when the batch's maximum distance is `0.0`. -/
def rerank_results (cache : RelevanceCache) (query : String) (cands : List Candidate)
    (scorer : List String → Option (List ℚ)) :
    Option (List SearchResult × RelevanceCache × Bool) :=
  match cands with
  | [] => some ([], cache, false)
  | [c] =>
    some ([{ id := c.id, text := c.metadata.text, metadata := c.metadata,
             similarity_score := 1 - c.distance, relevance_score := 1, combined_score := 1 }],
          cache, false)
  | c0 :: c1 :: rest =>
    let all := c0 :: c1 :: rest
    let uncached := all.filter (isUncached cache query)
    let scored :=
      if uncached.isEmpty then
        (fallbackScores cache query all, cache, false)
      else
        match scorer (uncached.map (fun c => c.metadata.text)) with
        | some scores =>
          if scores.length = uncached.length then
            (fillScores cache query all scores,
             applyPairs (newCachePairs cache query all scores) cache, true)
          else
            (fallbackScores cache query all, cache, true)
        | none => (fallbackScores cache query all, cache, true)
    let maxd := maxDistance all
    if maxd = 0 then none
    else some (List.insertionSort resultLe (buildResults all scored.1 maxd), scored.2.1, scored.2.2)

/-- The sort key of the balancer's remainder pool (app.py line 119):
descending combined score, stable. -/
def resultScoreGe (a b : SearchResult) : Prop := b.combined_score ≤ a.combined_score

instance : DecidableRel resultScoreGe := fun a b => by
  unfold resultScoreGe; infer_instance

instance : IsTotal SearchResult resultScoreGe :=
  ⟨fun a b => (le_total b.combined_score a.combined_score).imp id id⟩

instance : IsTrans SearchResult resultScoreGe :=
  ⟨fun _ _ _ hab hbc => le_trans hbc hab⟩

/-- Model of `RAGApplication._balance_results` (app.py lines 83-122): with at most
one requested source the input passes through; otherwise walk the requested
sources in order taking up to `min_per_source` results from each source's
group (groups keep the ranked input order), pool the leftovers, sort the
pool descending by combined score, and append it. -/
def balance_results (results : List SearchResult) (source_names : List String) :
    List SearchResult :=
  if source_names.length ≤ 1 then results
  else
    let min_per_source := max 2 (results.length / source_names.length)
    let balanced := source_names.flatMap
      (fun s => (results.filter (fun r => r.metadata.source_name = s)).take min_per_source)
    let remaining := source_names.flatMap
      (fun s => (results.filter (fun r => r.metadata.source_name = s)).drop min_per_source)
    balanced ++ List.insertionSort resultScoreGe remaining

/-- The metadata `where` clauses `VectorDatabase.query` can build
(database.py lines 171-186). -/
inductive WhereClause
  | srcIn (names : List String)
  | titleEq (t : String)
  | conj (a b : WhereClause)

/-- The `where` construction of `VectorDatabase.query`: Python truthiness
means a present-but-empty list or empty string counts as absent; the title
filter is `{"title": {"$eq": title.lower()}}`. -/
def buildWhere (source_names : Option (List String)) (title : Option String) :
    Option WhereClause :=
  let sn : Option (List String) :=
    match source_names with
    | some names => if names = [] then none else some names
    | none => none
  let t : Option String :=
    match title with
    | some s => if s = "" then none else some s
    | none => none
  match sn, t with
  | some names, some s => some (.conj (.srcIn names) (.titleEq (pyLower s)))
  | some names, none => some (.srcIn names)
  | none, some s => some (.titleEq (pyLower s))
  | none, none => none

/-- Chroma metadata-filter semantics, the store's documented contract:
`$in` is membership, `$eq` is exact string equality, `$and` is
conjunction. -/
def evalWhere (w : WhereClause) (r : ChunkRecord) : Bool :=
  match w with
  | .srcIn names => r.meta.source_name ∈ names
  | .titleEq t => r.meta.title = t
  | .conj a b => evalWhere a r && evalWhere b r

/-- Whether a stored record passes the filters of a `VectorDatabase.query`
call with the given `source_names`/`title` arguments. -/
def passesFilter (source_names : Option (List String)) (title : Option String)
    (r : ChunkRecord) : Bool :=
  match buildWhere source_names title with
  | none => true
  | some w => evalWhere w r

/-- Substring test on character lists (no library dependency). -/
def charsContain (pat s : List Char) : Bool :=
  (List.range (s.length + 1)).any (fun i => (s.drop i).take pat.length == pat)

/-- Modelled from the spec's words, for comparison with `passesFilter`: the
spec says the title filter "is a case-insensitive containment match", i.e.
the filter string occurs inside the stored title, compared
case-insensitively. -/
def specTitleMatch (filterStr storedTitle : String) : Bool :=
  charsContain (pyLower filterStr).data (pyLower storedTitle).data

/-- Sample metadata used by concrete witnesses. -/
def sampleMeta : ChunkMeta :=
  { source_name := "a.pdf", title := "Doc", chunk_index := 0, total_chunks := 1,
    section_title := "", section_type := "content", file_type := "pdf", text := "hello" }

/-- A second sample metadata value (chunk 1 of 2). -/
def sampleMeta2 : ChunkMeta :=
  { source_name := "a.pdf", title := "Doc", chunk_index := 1, total_chunks := 2,
    section_title := "", section_type := "content", file_type := "pdf", text := "world" }

/-- Sample metadata: chunk 0 of 2. -/
def sampleMetaA : ChunkMeta :=
  { source_name := "a.pdf", title := "Doc", chunk_index := 0, total_chunks := 2,
    section_title := "", section_type := "content", file_type := "pdf", text := "hello" }

/-- A minimal search result used by concrete balancer witnesses. -/
def mkSimpleResult (i : Nat) (src : String) (score : ℚ) : SearchResult :=
  { id := i, text := "t", metadata := { sampleMeta with source_name := src },
    similarity_score := 0, relevance_score := 0, combined_score := score }

/-- A minimal similarity-search candidate used by concrete rerank
witnesses. -/
def sampleCand (i : Nat) (d : ℚ) (txt : String) : Candidate :=
  { id := i, distance := d, metadata := { sampleMeta with text := txt } }

/-! ### Helper lemmas for the ingestion pipeline -/

/-- The verification pass signals `error` exactly on count mismatch,
non-contiguous indices, or a `total_chunks` mismatch (given at least one
chunk was written), and `completed` otherwise. -/
theorem verifyStoredStatus_error_iff (n : Nat) (stored : List ChunkRecord) (h : 1 ≤ n) :
    (verifyStoredStatus n stored = .error ↔
      (stored.length ≠ n ∨ sortedIndices stored ≠ expectedIndices n ∨
        ∃ c ∈ stored, c.meta.total_chunks ≠ (n : Int))) ∧
    (verifyStoredStatus n stored = .completed ↔
      ¬(stored.length ≠ n ∨ sortedIndices stored ≠ expectedIndices n ∨
        ∃ c ∈ stored, c.meta.total_chunks ≠ (n : Int))) := by
  unfold verifyStoredStatus
  split_ifs with h1 h2 h3 h4
  · have hnil : stored = [] := by simpa using h1
    have hD : stored.length ≠ n ∨ sortedIndices stored ≠ expectedIndices n ∨
        ∃ c ∈ stored, c.meta.total_chunks ≠ (n : Int) := by
      subst hnil
      exact Or.inl (by simpa using by omega)
    exact ⟨iff_of_true rfl hD, iff_of_false (by simp) (not_not_intro hD)⟩
  · have hD : stored.length ≠ n ∨ sortedIndices stored ≠ expectedIndices n ∨
        ∃ c ∈ stored, c.meta.total_chunks ≠ (n : Int) := Or.inl h2
    exact ⟨iff_of_true rfl hD, iff_of_false (by simp) (not_not_intro hD)⟩
  · have hD : stored.length ≠ n ∨ sortedIndices stored ≠ expectedIndices n ∨
        ∃ c ∈ stored, c.meta.total_chunks ≠ (n : Int) := Or.inr (Or.inl h3)
    exact ⟨iff_of_true rfl hD, iff_of_false (by simp) (not_not_intro hD)⟩
  · simp only [List.any_eq_true, decide_eq_true_eq] at h4
    have hD : stored.length ≠ n ∨ sortedIndices stored ≠ expectedIndices n ∨
        ∃ c ∈ stored, c.meta.total_chunks ≠ (n : Int) := Or.inr (Or.inr h4)
    exact ⟨iff_of_true rfl hD, iff_of_false (by simp) (not_not_intro hD)⟩
  · simp only [List.any_eq_true, decide_eq_true_eq, not_exists] at h4
    have hnD : ¬(stored.length ≠ n ∨ sortedIndices stored ≠ expectedIndices n ∨
        ∃ c ∈ stored, c.meta.total_chunks ≠ (n : Int)) := by
      rintro (hc | hc | ⟨c, hc, hc2⟩)
      · exact h2 hc
      · exact h3 hc
      · exact h4 c ⟨hc, hc2⟩
    exact ⟨iff_of_false (by simp) (fun hd => hnD hd), iff_of_true rfl hnD⟩

/-- C1: after inserting a document's records, `process_and_store_document`
re-reads the stored chunks for the source name and ends in state `error`
exactly when the stored chunk count differs from the count just written, or
the sorted stored `chunk_index` values are not the contiguous range
`0..n-1`, or some stored chunk's `total_chunks` differs from `n`; on full
success the state is `completed`. -/
theorem C1_verification_pass_iff
    (filename : String) (chunks : List ChunkRecord) (store store2 : Store)
    (hne : chunks ≠ [])
    (hadd : add_documents (setSource filename chunks) (deleteBySourceIds filename store) =
      some store2) :
    ((process_and_store_document filename chunks store).1 = .error ↔
      ((get_document_chunks filename store2).length ≠ chunks.length ∨
       sortedIndices (get_document_chunks filename store2) ≠ expectedIndices chunks.length ∨
       ∃ c ∈ get_document_chunks filename store2,
         c.meta.total_chunks ≠ (chunks.length : Int))) ∧
    ((process_and_store_document filename chunks store).1 = .completed ↔
      ¬((get_document_chunks filename store2).length ≠ chunks.length ∨
        sortedIndices (get_document_chunks filename store2) ≠ expectedIndices chunks.length ∨
        ∃ c ∈ get_document_chunks filename store2,
          c.meta.total_chunks ≠ (chunks.length : Int))) := by
  have hbe : chunks.isEmpty = false := by simpa using hne
  have hlen : (setSource filename chunks).length = chunks.length := by simp [setSource]
  have hproc : (process_and_store_document filename chunks store).1 =
      verifyStoredStatus chunks.length (get_document_chunks filename store2) := by
    simp only [process_and_store_document, hbe, Bool.false_eq_true, if_false, hadd, hlen]
  rw [hproc]
  exact verifyStoredStatus_error_iff chunks.length (get_document_chunks filename store2)
    (List.length_pos.mpr hne)

/-- Witness for C1 at a concrete one-chunk document. -/
theorem C1_verification_pass_iff_witness :
    (([⟨0, sampleMeta⟩] : List ChunkRecord) ≠ [] ∧
      add_documents (setSource "a.pdf" [⟨0, sampleMeta⟩]) (deleteBySourceIds "a.pdf" []) =
        some [⟨0, sampleMeta⟩]) ∧
    (process_and_store_document "a.pdf" [⟨0, sampleMeta⟩] []).1 = .completed := by
  refine ⟨⟨by decide, by decide⟩, ?_⟩
  have h := C1_verification_pass_iff "a.pdf" [⟨0, sampleMeta⟩] [] [⟨0, sampleMeta⟩]
    (by decide) (by decide)
  exact h.2.mpr (by decide)

/-! ### Helper lemmas for the replace step -/

/-- After `deleteBySourceIds s`, no record under source `s` remains. -/
theorem filter_deleteBySourceIds (s : String) (store : Store) :
    (deleteBySourceIds s store).filter (fun r => r.meta.source_name = s) = [] := by
  rw [List.filter_eq_nil_iff]
  intro a ha hsrc
  simp only [decide_eq_true_eq] at hsrc
  simp only [deleteBySourceIds, List.mem_filter, decide_eq_true_eq] at ha
  exact ha.2 (List.mem_map.mpr ⟨a, List.mem_filter.mpr ⟨ha.1, by simp [hsrc]⟩, rfl⟩)

/-- Folding the first-occurrence accumulator over a batch whose sources are
already accumulated leaves the accumulator unchanged. -/
theorem firstOccurrenceSources_aux (s : String) :
    ∀ (docs : List ChunkRecord) (acc : List String),
      (∀ d ∈ docs, d.meta.source_name = s) → s ∈ acc →
      docs.foldl
        (fun a d => if d.meta.source_name ∈ a then a else a ++ [d.meta.source_name]) acc =
        acc := by
  intro docs
  induction docs with
  | nil => intro acc _ _; rfl
  | cons d rest ih =>
    intro acc hall hs
    have hd : d.meta.source_name = s := hall d (by simp)
    have hstep : (if d.meta.source_name ∈ acc then acc else acc ++ [d.meta.source_name]) =
        acc := by rw [hd]; simp [hs]
    rw [List.foldl_cons, hstep]
    exact ih acc (fun x hx => hall x (by simp [hx])) hs

/-- A nonempty single-source batch has exactly one first-occurrence
source. -/
theorem firstOccurrenceSources_const (s : String) (docs : List ChunkRecord)
    (hne : docs ≠ []) (hall : ∀ d ∈ docs, d.meta.source_name = s) :
    firstOccurrenceSources docs = [s] := by
  cases docs with
  | nil => exact absurd rfl hne
  | cons d rest =>
    unfold firstOccurrenceSources
    rw [List.foldl_cons]
    have hd : d.meta.source_name = s := hall d (by simp)
    have h0 : (if d.meta.source_name ∈ ([] : List String) then ([] : List String)
        else [] ++ [d.meta.source_name]) = [s] := by simp [hd]
    rw [h0]
    exact firstOccurrenceSources_aux s rest [s] (fun x hx => hall x (by simp [hx])) (by simp)

/-- A successful `add_documents` of a nonempty single-source batch leaves
exactly that batch stored under the source. -/
theorem add_documents_single_source (s : String) (docs : List ChunkRecord) (store st : Store)
    (hsrc : ∀ d ∈ docs, d.meta.source_name = s) (hne : docs ≠ [])
    (h : add_documents docs store = some st) :
    st.filter (fun r => r.meta.source_name = s) = docs := by
  have hbe : docs.isEmpty = false := by simpa using hne
  have hfil : docs.filter (fun d => d.meta.source_name = s) = docs :=
    List.filter_eq_self.mpr (fun a ha => by simp [hsrc a ha])
  unfold add_documents at h
  simp only [hbe, Bool.false_eq_true, if_false] at h
  by_cases hv : validateChunkConsistency docs
  · rw [if_pos hv, firstOccurrenceSources_const s docs hne hsrc] at h
    simp only [List.foldl_cons, List.foldl_nil, hfil, Option.some_inj] at h
    rw [← h, List.filter_append, filter_deleteBySourceIds, hfil]
    simp
  · rw [if_neg hv] at h
    exact absurd h (by simp)

/-- C5: running a (successful) ingestion of the same source twice leaves the
store containing exactly the records of the second ingestion for that
source — the second run replaces, it never unions. -/
theorem C5_reingest_replaces
    (filename : String) (chunks1 chunks2 : List ChunkRecord) (store0 st1 st2 : Store)
    (s1 s2 : Status)
    (h1 : process_and_store_document filename chunks1 store0 = (s1, st1))
    (h2 : process_and_store_document filename chunks2 st1 = (s2, st2))
    (hs2 : s2 = .completed) :
    st2.filter (fun r => r.meta.source_name = filename) = setSource filename chunks2 := by
  subst hs2
  unfold process_and_store_document at h2
  by_cases hbe : chunks2.isEmpty = true
  · rw [if_pos hbe] at h2
    simp at h2
  · have hbf : chunks2.isEmpty = false := by simpa using hbe
    simp only [hbf, Bool.false_eq_true, if_false] at h2
    rcases hadd : add_documents (setSource filename chunks2) (deleteBySourceIds filename st1)
      with _ | stX
    · rw [hadd] at h2
      simp at h2
    · rw [hadd] at h2
      have hne2 : chunks2 ≠ [] := by simpa using hbf
      have hne2d : setSource filename chunks2 ≠ [] := by
        simp [setSource]
        exact hne2
      have hall : ∀ d ∈ setSource filename chunks2, d.meta.source_name = filename := by
        intro d hd
        simp only [setSource, List.mem_map] at hd
        obtain ⟨c, _, rfl⟩ := hd
        rfl
      have hrepl := add_documents_single_source filename (setSource filename chunks2) _ stX
        hall hne2d hadd
      have hst2 : stX = st2 := (Prod.mk.injEq _ _ _ _ ▸ h2).2
      rw [← hst2]
      exact hrepl

/-- Witness for C5: two concrete successful ingestions of `a.pdf`. -/
theorem C5_reingest_replaces_witness :
    (process_and_store_document "a.pdf" [⟨0, sampleMeta⟩] [] =
      (Status.completed, [⟨0, sampleMeta⟩]) ∧
     process_and_store_document "a.pdf" [⟨1, sampleMetaA⟩, ⟨2, sampleMeta2⟩] [⟨0, sampleMeta⟩] =
      (Status.completed, [⟨1, sampleMetaA⟩, ⟨2, sampleMeta2⟩])) ∧
    ([⟨1, sampleMetaA⟩, ⟨2, sampleMeta2⟩] : Store).filter
        (fun r => r.meta.source_name = "a.pdf") =
      setSource "a.pdf" [⟨1, sampleMetaA⟩, ⟨2, sampleMeta2⟩] := by
  refine ⟨⟨by decide, by decide⟩, ?_⟩
  exact C5_reingest_replaces "a.pdf" [⟨0, sampleMeta⟩] [⟨1, sampleMetaA⟩, ⟨2, sampleMeta2⟩]
    [] [⟨0, sampleMeta⟩] [⟨1, sampleMetaA⟩, ⟨2, sampleMeta2⟩] .completed .completed
    (by decide) (by decide) rfl

/-- C2: `perform_similarity_search` returns the store's candidate rows as a
permutation sorted by ascending distance with ties broken by ascending id;
being a pure function of the candidate set, its output is identical on
every run. -/
theorem C2_similarity_search_deterministic_order (rows : List Candidate) :
    (perform_similarity_search rows).Perm rows ∧
    (perform_similarity_search rows).Sorted candLe :=
  ⟨List.perm_insertionSort candLe rows, List.sorted_insertionSort candLe rows⟩

/-! ### Helper lemmas for the balancer -/

/-- A single group's matches cannot exceed the matches of the whole
flattened walk. -/
theorem countP_flatMap_le {α β : Type} (p : β → Bool) (f : α → List β) (l : List α) (a : α)
    (ha : a ∈ l) : (f a).countP p ≤ (l.flatMap f).countP p := by
  induction l with
  | nil => simp at ha
  | cons b rest ih =>
    rw [List.flatMap_cons, List.countP_append]
    rcases List.mem_cons.mp ha with rfl | hmem
    · exact Nat.le_add_right _ _
    · exact le_trans (ih hmem) (Nat.le_add_left _ _)

/-- C6: with more than one requested source, the balancer output is the
per-source heads (up to `min_per_source = max 2 (total_results div
number_of_sources)` top-ranked results from each requested source, in
caller order) followed by the leftovers sorted descending by combined
score; every requested source owning at least `min_per_source` candidates
contributes at least `min_per_source` results to the output. -/
theorem C6_balancer_structure_and_minimum
    (results : List SearchResult) (source_names : List String)
    (h2 : 2 ≤ source_names.length) :
    (balance_results results source_names =
      source_names.flatMap
        (fun s => (results.filter (fun r => r.metadata.source_name = s)).take
          (max 2 (results.length / source_names.length))) ++
      List.insertionSort resultScoreGe
        (source_names.flatMap
          (fun s => (results.filter (fun r => r.metadata.source_name = s)).drop
            (max 2 (results.length / source_names.length))))) ∧
    (List.insertionSort resultScoreGe
      (source_names.flatMap
        (fun s => (results.filter (fun r => r.metadata.source_name = s)).drop
          (max 2 (results.length / source_names.length))))).Sorted resultScoreGe ∧
    (∀ s ∈ source_names,
      max 2 (results.length / source_names.length) ≤
        (results.filter (fun r => r.metadata.source_name = s)).length →
      max 2 (results.length / source_names.length) ≤
        ((balance_results results source_names).filter
          (fun r => r.metadata.source_name = s)).length) := by
  have hgt : ¬ source_names.length ≤ 1 := by omega
  have hbal : balance_results results source_names =
      source_names.flatMap
        (fun s => (results.filter (fun r => r.metadata.source_name = s)).take
          (max 2 (results.length / source_names.length))) ++
      List.insertionSort resultScoreGe
        (source_names.flatMap
          (fun s => (results.filter (fun r => r.metadata.source_name = s)).drop
            (max 2 (results.length / source_names.length)))) := by
    unfold balance_results
    rw [if_neg hgt]
  refine ⟨hbal, List.sorted_insertionSort _ _, ?_⟩
  intro s hs hlen
  rw [hbal, List.filter_append, List.length_append]
  refine le_trans ?_ (Nat.le_add_right _ _)
  rw [← List.countP_eq_length_filter]
  refine le_trans ?_ (countP_flatMap_le _ _ _ s hs)
  have hall : ∀ r ∈ (results.filter (fun r => r.metadata.source_name = s)).take
      (max 2 (results.length / source_names.length)),
      decide (r.metadata.source_name = s) = true :=
    fun r hr => (List.mem_filter.mp (List.mem_of_mem_take hr)).2
  rw [List.countP_eq_length.mpr hall, List.length_take]
  omega

/-- Witness for C6: two sources with two candidates each. -/
theorem C6_balancer_structure_and_minimum_witness :
    2 ≤ (["a.pdf", "b.pdf"] : List String).length ∧
    max 2 (([mkSimpleResult 0 "a.pdf" 4, mkSimpleResult 1 "a.pdf" 3,
             mkSimpleResult 2 "b.pdf" 2, mkSimpleResult 3 "b.pdf" 1] : List SearchResult).length
            / (["a.pdf", "b.pdf"] : List String).length) ≤
      ((balance_results
          [mkSimpleResult 0 "a.pdf" 4, mkSimpleResult 1 "a.pdf" 3,
           mkSimpleResult 2 "b.pdf" 2, mkSimpleResult 3 "b.pdf" 1]
          ["a.pdf", "b.pdf"]).filter
        (fun r => r.metadata.source_name = "a.pdf")).length := by
  refine ⟨by decide, ?_⟩
  exact (C6_balancer_structure_and_minimum
      [mkSimpleResult 0 "a.pdf" 4, mkSimpleResult 1 "a.pdf" 3,
       mkSimpleResult 2 "b.pdf" 2, mkSimpleResult 3 "b.pdf" 1]
      ["a.pdf", "b.pdf"] (by decide)).2.2 "a.pdf" (by decide) (by decide)

/-! ### Counting lemmas for the balancer's output multiset -/

/-- Count over a flattened per-source walk is the sum of per-group counts. -/
theorem count_flatMap_eq_sum {α β : Type} [DecidableEq β] (x : β) (f : α → List β) :
    ∀ l : List α, (l.flatMap f).count x = (l.map (fun a => (f a).count x)).sum := by
  intro l
  induction l with
  | nil => simp
  | cons b rest ih => simp [List.flatMap_cons, List.count_append, ih]

/-- Sums of pointwise-added maps split. -/
theorem sum_map_add_nat {α : Type} (f g : α → ℕ) (l : List α) :
    (l.map (fun a => f a + g a)).sum = (l.map f).sum + (l.map g).sum := by
  induction l with
  | nil => simp
  | cons b rest ih =>
    simp only [List.map_cons, List.sum_cons, ih]
    omega

/-- Counting a result inside one source group. -/
theorem count_group (x : SearchResult) (results : List SearchResult) (s : String) :
    (results.filter (fun r => r.metadata.source_name = s)).count x =
      if x.metadata.source_name = s then results.count x else 0 := by
  split_ifs with hx
  · exact List.count_filter (by simp [hx])
  · rw [List.count_eq_zero]
    intro hmem
    exact hx (by simpa using (List.mem_filter.mp hmem).2)

/-- Summing the group counts over a duplicate-free source list counts the
results whose source is requested. -/
theorem sum_count_groups (x : SearchResult) (results : List SearchResult) :
    ∀ (sources : List String), sources.Nodup →
      (sources.map (fun s =>
        (results.filter (fun r => r.metadata.source_name = s)).count x)).sum =
      (results.filter (fun r => r.metadata.source_name ∈ sources)).count x := by
  intro sources
  induction sources with
  | nil => simp
  | cons s rest ih =>
    intro hnd
    obtain ⟨hs, hrest⟩ := List.nodup_cons.mp hnd
    rw [List.map_cons, List.sum_cons, ih hrest, count_group]
    have hsplit : (results.filter (fun r => r.metadata.source_name ∈ s :: rest)).count x =
        (if x.metadata.source_name = s then results.count x else 0) +
        (results.filter (fun r => r.metadata.source_name ∈ rest)).count x := by
      by_cases hx : x.metadata.source_name = s
      · rw [if_pos hx]
        have h1 : (results.filter
            (fun r => r.metadata.source_name ∈ s :: rest)).count x = results.count x :=
          List.count_filter (by simp [hx])
        have hz : (results.filter (fun r => r.metadata.source_name ∈ rest)).count x = 0 := by
          rw [List.count_eq_zero]
          intro hmem
          have hin := (List.mem_filter.mp hmem).2
          simp only [decide_eq_true_eq] at hin
          exact hs (hx ▸ hin)
        rw [h1, hz]
        omega
      · rw [if_neg hx]
        by_cases hx2 : x.metadata.source_name ∈ rest
        · have h1 : (results.filter
              (fun r => r.metadata.source_name ∈ s :: rest)).count x = results.count x :=
            List.count_filter (by simp [hx2])
          have h2 : (results.filter
              (fun r => r.metadata.source_name ∈ rest)).count x = results.count x :=
            List.count_filter (by simp [hx2])
          rw [h1, h2]
          simp
        · have h1 : (results.filter
              (fun r => r.metadata.source_name ∈ s :: rest)).count x = 0 := by
            rw [List.count_eq_zero]
            intro hmem
            have hin := (List.mem_filter.mp hmem).2
            simp only [decide_eq_true_eq, List.mem_cons] at hin
            rcases hin with h | h
            · exact hx h
            · exact hx2 h
          have h2 : (results.filter
              (fun r => r.metadata.source_name ∈ rest)).count x = 0 := by
            rw [List.count_eq_zero]
            intro hmem
            have hin := (List.mem_filter.mp hmem).2
            simp only [decide_eq_true_eq] at hin
            exact hx2 hin
          rw [h1, h2]
    exact hsplit.symm

/-- C10 (amended): with more than one requested source and a duplicate-free
request list, the balancer's output is exactly the input results whose
source is requested — reordered, none duplicated, the rest silently
dropped. -/
theorem C10_balancer_drops_unrequested
    (results : List SearchResult) (source_names : List String)
    (hnd : source_names.Nodup) (h2 : 2 ≤ source_names.length) :
    (balance_results results source_names).Perm
      (results.filter (fun r => r.metadata.source_name ∈ source_names)) := by
  rw [List.perm_iff_count]
  intro x
  have hgt : ¬ source_names.length ≤ 1 := by omega
  unfold balance_results
  rw [if_neg hgt]
  rw [List.count_append, (List.perm_insertionSort resultScoreGe _).count_eq x]
  rw [count_flatMap_eq_sum, count_flatMap_eq_sum, ← sum_map_add_nat]
  have hsplit : ∀ s : String,
      ((results.filter (fun r => r.metadata.source_name = s)).take
        (max 2 (results.length / source_names.length))).count x +
      ((results.filter (fun r => r.metadata.source_name = s)).drop
        (max 2 (results.length / source_names.length))).count x =
      (results.filter (fun r => r.metadata.source_name = s)).count x := by
    intro s
    conv_rhs => rw [← List.take_append_drop
      (max 2 (results.length / source_names.length))
      (results.filter (fun r => r.metadata.source_name = s))]
    rw [List.count_append]
  have hfun : (fun s => ((results.filter (fun r => r.metadata.source_name = s)).take
        (max 2 (results.length / source_names.length))).count x +
      ((results.filter (fun r => r.metadata.source_name = s)).drop
        (max 2 (results.length / source_names.length))).count x) =
      (fun s => (results.filter (fun r => r.metadata.source_name = s)).count x) :=
    funext hsplit
  rw [hfun]
  exact sum_count_groups x results source_names hnd

/-- Witness for C10 at a duplicate-free two-source request. -/
theorem C10_balancer_drops_unrequested_witness :
    ((["a.pdf", "b.pdf"] : List String).Nodup ∧
      2 ≤ (["a.pdf", "b.pdf"] : List String).length) ∧
    (balance_results [mkSimpleResult 0 "a.pdf" 2, mkSimpleResult 1 "b.pdf" 1]
        ["a.pdf", "b.pdf"]).Perm
      (([mkSimpleResult 0 "a.pdf" 2, mkSimpleResult 1 "b.pdf" 1] : List SearchResult).filter
        (fun r => r.metadata.source_name ∈ (["a.pdf", "b.pdf"] : List String))) := by
  refine ⟨⟨by decide, by decide⟩, ?_⟩
  exact C10_balancer_drops_unrequested
    [mkSimpleResult 0 "a.pdf" 2, mkSimpleResult 1 "b.pdf" 1] ["a.pdf", "b.pdf"]
    (by decide) (by decide)

/-- Counterexample to C10 as stated: a request list naming `a.pdf` twice
makes the balancer emit that source's results twice, so the output is not a
permutation of the matching inputs. -/
theorem C10_counterexample_duplicate_sources :
    ¬ (balance_results [mkSimpleResult 0 "a.pdf" 2, mkSimpleResult 1 "b.pdf" 1]
        ["a.pdf", "a.pdf", "b.pdf"]).Perm
      (([mkSimpleResult 0 "a.pdf" 2, mkSimpleResult 1 "b.pdf" 1] : List SearchResult).filter
        (fun r => r.metadata.source_name ∈ (["a.pdf", "a.pdf", "b.pdf"] : List String))) := by
  intro h
  have hlen := h.length_eq
  have h1 : (balance_results [mkSimpleResult 0 "a.pdf" 2, mkSimpleResult 1 "b.pdf" 1]
      ["a.pdf", "a.pdf", "b.pdf"]).length = 3 := by decide
  have h2 : (([mkSimpleResult 0 "a.pdf" 2, mkSimpleResult 1 "b.pdf" 1] :
      List SearchResult).filter
        (fun r => r.metadata.source_name ∈ (["a.pdf", "a.pdf", "b.pdf"] : List String))).length
      = 2 := by decide
  rw [h1, h2] at hlen
  exact absurd hlen (by decide)

/-- C8 (amended): the `source_names` filter is an OR over the provided set
and combines with the title filter by logical AND, but a stored chunk
passes the title filter exactly when its stored title string equals the
lowercased filter string — an exact `$eq` match, not a case-insensitive
containment match. -/
theorem C8_title_filter_semantics (names : List String) (t : String) (r : ChunkRecord)
    (hn : names ≠ []) (ht : t ≠ "") :
    (passesFilter (some names) (some t) r = true ↔
      (r.meta.source_name ∈ names ∧ r.meta.title = pyLower t)) ∧
    (passesFilter (some names) none r = true ↔ r.meta.source_name ∈ names) ∧
    (passesFilter none (some t) r = true ↔ r.meta.title = pyLower t) := by
  refine ⟨?_, ?_, ?_⟩ <;>
    simp [passesFilter, buildWhere, evalWhere, hn, ht]

/-- Witness for C8 at a concrete record and filters. -/
theorem C8_title_filter_semantics_witness :
    ((["a.pdf"] : List String) ≠ [] ∧ ("Doc" : String) ≠ "") ∧
    passesFilter (some ["a.pdf"]) none ⟨0, sampleMeta⟩ = true := by
  refine ⟨⟨by decide, by decide⟩, ?_⟩
  exact (C8_title_filter_semantics ["a.pdf"] "Doc" ⟨0, sampleMeta⟩
    (by decide) (by decide)).2.1.mpr (by decide)

/-- Counterexample to C8 as stated: the stored title `"Doc"` contains the
filter string `"Doc"` case-insensitively, so the spec's containment filter
accepts the chunk, but the code's `$eq`-against-`title.lower()` filter
rejects it. -/
theorem C8_counterexample_title_filter :
    passesFilter none (some "Doc") ⟨0, sampleMeta⟩ = false ∧
    specTitleMatch "Doc" (ChunkRecord.mk 0 sampleMeta).meta.title = true := by
  constructor <;> decide

/-! ### Branch characterizations of `rerank_results` -/

/-- With an all-zero-distance batch of two or more candidates the combine
loop's division raises (`none`). -/
theorem rerank_zero_max_eq (cache : RelevanceCache) (query : String)
    (cands : List Candidate) (scorer : List String → Option (List ℚ))
    (hlen : 2 ≤ cands.length) (hmax : maxDistance cands = 0) :
    rerank_results cache query cands scorer = none := by
  cases cands with
  | nil => simp at hlen
  | cons c0 tl =>
    cases tl with
    | nil => simp at hlen
    | cons c1 rest =>
      simp only [rerank_results, hmax, if_pos]

/-- When every candidate hits the cache, the scorer is not called and the
cache is unchanged. -/
theorem rerank_all_cached_eq (cache : RelevanceCache) (query : String)
    (cands : List Candidate) (scorer : List String → Option (List ℚ))
    (hlen : 2 ≤ cands.length)
    (hunc : cands.filter (isUncached cache query) = [])
    (hmax : maxDistance cands ≠ 0) :
    rerank_results cache query cands scorer =
      some (List.insertionSort resultLe
        (buildResults cands (fallbackScores cache query cands) (maxDistance cands)),
        cache, false) := by
  cases cands with
  | nil => simp at hlen
  | cons c0 tl =>
    cases tl with
    | nil => simp at hlen
    | cons c1 rest =>
      simp only [rerank_results, hunc, List.isEmpty_nil, if_true, if_neg hmax]

/-- Successful scorer call with a matching score count: scores are
consumed positionally and the cache gains one write per uncached
candidate. -/
theorem rerank_scorer_success_eq (cache : RelevanceCache) (query : String)
    (cands : List Candidate) (scorer : List String → Option (List ℚ)) (scores : List ℚ)
    (hlen : 2 ≤ cands.length)
    (hne : cands.filter (isUncached cache query) ≠ [])
    (hsc : scorer ((cands.filter (isUncached cache query)).map (fun c => c.metadata.text)) =
      some scores)
    (hcnt : scores.length = (cands.filter (isUncached cache query)).length)
    (hmax : maxDistance cands ≠ 0) :
    rerank_results cache query cands scorer =
      some (List.insertionSort resultLe
        (buildResults cands (fillScores cache query cands scores) (maxDistance cands)),
        applyPairs (newCachePairs cache query cands scores) cache, true) := by
  cases cands with
  | nil => simp at hlen
  | cons c0 tl =>
    cases tl with
    | nil => simp at hlen
    | cons c1 rest =>
      have hbe : ((c0 :: c1 :: rest).filter (isUncached cache query)).isEmpty = false := by
        simpa using hne
      simp only [rerank_results, hbe, Bool.false_eq_true, if_false, hsc, hcnt, if_pos,
        if_neg hmax]

/-- Scorer failure or score-count mismatch: uncached candidates fall back
to `1 - distance` and the cache is unchanged. -/
theorem rerank_scorer_failure_eq (cache : RelevanceCache) (query : String)
    (cands : List Candidate) (scorer : List String → Option (List ℚ))
    (hlen : 2 ≤ cands.length)
    (hne : cands.filter (isUncached cache query) ≠ [])
    (hfail :
      scorer ((cands.filter (isUncached cache query)).map (fun c => c.metadata.text)) = none ∨
      ∃ l, scorer ((cands.filter (isUncached cache query)).map (fun c => c.metadata.text)) =
          some l ∧
        l.length ≠ (cands.filter (isUncached cache query)).length)
    (hmax : maxDistance cands ≠ 0) :
    rerank_results cache query cands scorer =
      some (List.insertionSort resultLe
        (buildResults cands (fallbackScores cache query cands) (maxDistance cands)),
        cache, true) := by
  cases cands with
  | nil => simp at hlen
  | cons c0 tl =>
    cases tl with
    | nil => simp at hlen
    | cons c1 rest =>
      have hbe : ((c0 :: c1 :: rest).filter (isUncached cache query)).isEmpty = false := by
        simpa using hne
      rcases hfail with hnone | ⟨l, hsome, hmis⟩
      · simp only [rerank_results, hbe, Bool.false_eq_true, if_false, hnone, if_neg hmax]
      · simp only [rerank_results, hbe, Bool.false_eq_true, if_false, hsome, hmis,
          if_neg hmax]

/-- C7 (amended): a single-candidate batch short-circuits without calling
the scorer to `similarity_score = 1 - distance`, `relevance_score = 1`,
`combined_score = 1`, and an empty batch returns an empty list. -/
theorem C7_single_and_empty_batch (cache : RelevanceCache) (query : String)
    (c : Candidate) (scorer : List String → Option (List ℚ)) :
    rerank_results cache query [c] scorer =
      some ([{ id := c.id, text := c.metadata.text, metadata := c.metadata,
               similarity_score := 1 - c.distance, relevance_score := 1,
               combined_score := 1 }], cache, false) ∧
    rerank_results cache query [] scorer = some ([], cache, false) :=
  ⟨rfl, rfl⟩

/-- Counterexample to C7 as stated: for a single candidate at distance
`1/2` the returned `similarity_score` is `1 - 1/2`, which is not the `1`
the claim asserts. -/
theorem C7_counterexample_single_similarity :
    rerank_results [] "q" [sampleCand 0 (1/2) "T"] (fun _ => none) =
      some ([{ id := 0, text := "T", metadata := { sampleMeta with text := "T" },
               similarity_score := 1 - (1/2 : ℚ), relevance_score := 1,
               combined_score := 1 }], [], false) ∧
    (1 - (1/2 : ℚ)) ≠ 1 := by
  constructor
  · rfl
  · norm_num

/-! ### Support lemmas: combine loop, max distance, cache fills -/

/-- The combine loop over a positionally matching relevance array is a map
over the candidates. -/
theorem buildResults_map (maxd : ℚ) (g : Candidate → ℚ) :
    ∀ l : List Candidate, buildResults l (l.map g) maxd =
      l.map (fun c => mkSearchResult maxd c (g c)) := by
  intro l
  induction l with
  | nil => rfl
  | cons c r ih =>
    simp only [List.map_cons, buildResults, List.zip_cons_cons]
    have htail := ih
    simp only [buildResults] at htail
    rw [htail]

/-- The running fold of `max(distances)` returns its seed or one of the
folded distances. -/
theorem foldl_max_choice : ∀ (l : List Candidate) (a : ℚ),
    l.foldl (fun m x => max m x.distance) a = a ∨
    ∃ x ∈ l, l.foldl (fun m x => max m x.distance) a = x.distance := by
  intro l
  induction l with
  | nil => intro a; exact Or.inl rfl
  | cons b r ih =>
    intro a
    rw [List.foldl_cons]
    rcases ih (max a b.distance) with h | ⟨x, hx, hfx⟩
    · rcases max_choice a b.distance with hm | hm
      · exact Or.inl (by rw [h, hm])
      · exact Or.inr ⟨b, by simp, by rw [h, hm]⟩
    · exact Or.inr ⟨x, by simp [hx], hfx⟩

/-- The running fold of `max(distances)` bounds its seed and every folded
distance. -/
theorem le_foldl_max : ∀ (l : List Candidate) (a : ℚ),
    a ≤ l.foldl (fun m x => max m x.distance) a ∧
    ∀ x ∈ l, x.distance ≤ l.foldl (fun m x => max m x.distance) a := by
  intro l
  induction l with
  | nil => intro a; exact ⟨le_refl a, by simp⟩
  | cons b r ih =>
    intro a
    rw [List.foldl_cons]
    obtain ⟨h1, h2⟩ := ih (max a b.distance)
    refine ⟨le_trans (le_max_left _ _) h1, ?_⟩
    intro x hx
    rcases List.mem_cons.mp hx with rfl | hx2
    · exact le_trans (le_max_right _ _) h1
    · exact h2 x hx2

/-- On a nonempty batch, `maxDistance` is attained and bounds every
distance. -/
theorem maxDistance_spec (l : List Candidate) (hne : l ≠ []) :
    (∃ c ∈ l, maxDistance l = c.distance) ∧ ∀ c ∈ l, c.distance ≤ maxDistance l := by
  cases l with
  | nil => exact absurd rfl hne
  | cons c0 r =>
    unfold maxDistance
    constructor
    · rcases foldl_max_choice r c0.distance with h | ⟨x, hx, hfx⟩
      · exact ⟨c0, by simp, h⟩
      · exact ⟨x, by simp [hx], hfx⟩
    · intro c hc
      obtain ⟨h1, h2⟩ := le_foldl_max r c0.distance
      rcases List.mem_cons.mp hc with rfl | hc2
      · exact h1
      · exact h2 c hc2

/-- The value of `max(distances)` only depends on the batch as a multiset. -/
theorem maxDistance_perm (l1 l2 : List Candidate) (hp : l1.Perm l2) (hne : l1 ≠ []) :
    maxDistance l1 = maxDistance l2 := by
  have hne2 : l2 ≠ [] := by
    intro h
    subst h
    exact hne hp.eq_nil
  obtain ⟨⟨c1, hc1, he1⟩, hb1⟩ := maxDistance_spec l1 hne
  obtain ⟨⟨c2, hc2, he2⟩, hb2⟩ := maxDistance_spec l2 hne2
  have h12 : maxDistance l1 ≤ maxDistance l2 := by
    rw [he1]
    exact hb2 c1 (hp.mem_iff.mp hc1)
  have h21 : maxDistance l2 ≤ maxDistance l1 := by
    rw [he2]
    exact hb1 c2 (hp.mem_iff.mpr hc2)
  exact le_antisymm h12 h21

/-- Peeling one write off `applyPairs`. -/
theorem applyPairs_cons (p : String × ℚ) (ps : List (String × ℚ)) (cb : RelevanceCache) :
    applyPairs (p :: ps) cb = applyPairs ps (p :: cb) := rfl

/-- A key none of the writes touches reads through `applyPairs`
unchanged. -/
theorem cacheGet_applyPairs_not_mem (k : String) :
    ∀ (ps : List (String × ℚ)) (cb : RelevanceCache), k ∉ ps.map Prod.fst →
      cacheGet (applyPairs ps cb) k = cacheGet cb k := by
  intro ps
  induction ps with
  | nil => intro cb _; rfl
  | cons p pr ih =>
    intro cb hk
    simp only [List.map_cons, List.mem_cons, not_or] at hk
    rw [applyPairs_cons, ih (p :: cb) hk.2]
    cases p with
    | mk k2 v => simp only [cacheGet, if_neg hk.1]

/-- Every write of `newCachePairs` is keyed by an uncached candidate of the
batch. -/
theorem newCachePairs_keys (cache : RelevanceCache) (query : String) :
    ∀ (cands : List Candidate) (scores : List ℚ) (p : String × ℚ),
      p ∈ newCachePairs cache query cands scores →
      ∃ c ∈ cands, p.1 = get_cache_key query c.metadata.text ∧
        cacheGet cache (get_cache_key query c.metadata.text) = none := by
  intro cands
  induction cands with
  | nil =>
    intro scores p hp
    simp [newCachePairs] at hp
  | cons c r ih =>
    intro scores p hp
    cases hg : cacheGet cache (get_cache_key query c.metadata.text) with
    | some v =>
      simp only [newCachePairs, hg] at hp
      obtain ⟨c', hc', h⟩ := ih scores p hp
      exact ⟨c', by simp [hc'], h⟩
    | none =>
      cases scores with
      | nil => simp [newCachePairs, hg] at hp
      | cons s ss =>
        simp only [newCachePairs, hg] at hp
        rcases List.mem_cons.mp hp with rfl | hp2
        · exact ⟨c, by simp, rfl, hg⟩
        · obtain ⟨c', hc', h⟩ := ih ss p hp2
          exact ⟨c', by simp [hc'], h⟩

/-- After a successful scorer call, each candidate's relevance score can be
read back from the updated cache under its own key: the score array
produced by `fillScores` is the per-candidate cache lookup, provided the
batch's cache keys are pairwise distinct.  `cacheB` generalizes the cache
the writes land on (it must agree with `cache0` on the batch's keys). -/
theorem fillScores_eq_map (cache0 : RelevanceCache) (query : String) :
    ∀ (cands : List Candidate) (scores : List ℚ) (cacheB : RelevanceCache),
      (∀ c ∈ cands, cacheGet cacheB (get_cache_key query c.metadata.text) =
        cacheGet cache0 (get_cache_key query c.metadata.text)) →
      (cands.map (fun c => get_cache_key query c.metadata.text)).Nodup →
      scores.length = (cands.filter (isUncached cache0 query)).length →
      fillScores cache0 query cands scores =
        cands.map (fun c =>
          (cacheGet (applyPairs (newCachePairs cache0 query cands scores) cacheB)
            (get_cache_key query c.metadata.text)).getD 0) := by
  intro cands
  induction cands with
  | nil =>
    intro scores cacheB _ _ _
    rfl
  | cons c r ih =>
    intro scores cacheB hB hnd hlen
    rw [List.map_cons] at hnd
    obtain ⟨hk_notin, hnd'⟩ := List.nodup_cons.mp hnd
    cases hg : cacheGet cache0 (get_cache_key query c.metadata.text) with
    | some v =>
      have hcf : isUncached cache0 query c = false := by simp [isUncached, hg]
      have hfill : fillScores cache0 query (c :: r) scores =
          v :: fillScores cache0 query r scores := by
        simp [fillScores, hg]
      have hpairs : newCachePairs cache0 query (c :: r) scores =
          newCachePairs cache0 query r scores := by
        simp [newCachePairs, hg]
      rw [hfill, hpairs, List.map_cons]
      congr 1
      · have hknp : get_cache_key query c.metadata.text ∉
            (newCachePairs cache0 query r scores).map Prod.fst := by
          intro hmem
          obtain ⟨p, hp, hfst⟩ := List.mem_map.mp hmem
          obtain ⟨c', _, hkeq, hnone⟩ := newCachePairs_keys cache0 query r scores p hp
          rw [hkeq] at hfst
          rw [hfst] at hnone
          rw [hnone] at hg
          exact Option.noConfusion hg
        rw [cacheGet_applyPairs_not_mem _ _ _ hknp, hB c (by simp), hg]
        rfl
      · refine ih scores cacheB (fun c' hc' => hB c' (by simp [hc'])) hnd' ?_
        simpa [List.filter_cons, hcf] using hlen
    | none =>
      have hct : isUncached cache0 query c = true := by simp [isUncached, hg]
      cases scores with
      | nil =>
        exfalso
        rw [List.length_nil] at hlen
        have : (c :: r).filter (isUncached cache0 query) =
            c :: r.filter (isUncached cache0 query) := by
          simp [List.filter_cons, hct]
        rw [this] at hlen
        simp at hlen
      | cons s ss =>
        have hfill : fillScores cache0 query (c :: r) (s :: ss) =
            s :: fillScores cache0 query r ss := by
          simp [fillScores, hg]
        have hpairs : newCachePairs cache0 query (c :: r) (s :: ss) =
            (get_cache_key query c.metadata.text, s) :: newCachePairs cache0 query r ss := by
          simp [newCachePairs, hg]
        rw [hfill, hpairs, List.map_cons, applyPairs_cons]
        congr 1
        · have hknp : get_cache_key query c.metadata.text ∉
              (newCachePairs cache0 query r ss).map Prod.fst := by
            intro hmem
            obtain ⟨p, hp, hfst⟩ := List.mem_map.mp hmem
            obtain ⟨c', hc', hkeq, _⟩ := newCachePairs_keys cache0 query r ss p hp
            rw [hkeq] at hfst
            exact hk_notin (hfst ▸ List.mem_map.mpr ⟨c', hc', rfl⟩)
          rw [cacheGet_applyPairs_not_mem _ _ _ hknp]
          simp [cacheGet]
        · refine ih ss ((get_cache_key query c.metadata.text, s) :: cacheB) ?_ hnd' ?_
          · intro c' hc'
            have hner : get_cache_key query c'.metadata.text ≠
                get_cache_key query c.metadata.text := by
              intro he
              exact hk_notin (he ▸ List.mem_map.mpr ⟨c', hc', rfl⟩)
            simp only [cacheGet, if_neg hner]
            exact hB c' (by simp [hc'])
          · have : (c :: r).filter (isUncached cache0 query) =
                c :: r.filter (isUncached cache0 query) := by
              simp [List.filter_cons, hct]
            rw [this] at hlen
            simpa using hlen

/-- Two sorted lists over the rerank key that are permutations of each
other and carry pairwise-distinct ids are equal (the key is antisymmetric
on such lists). -/
theorem sorted_unique_by_ids :
    ∀ (xs ys : List SearchResult), xs.Perm ys → xs.Pairwise resultLe →
      ys.Pairwise resultLe → (xs.map (fun r => r.id)).Nodup → xs = ys := by
  intro xs
  induction xs with
  | nil =>
    intro ys hp _ _ _
    exact hp.nil_eq
  | cons x xs' ih =>
    intro ys hp hsx hsy hnd
    cases ys with
    | nil =>
      exact absurd hp.symm.nil_eq (by simp)
    | cons y ys' =>
      by_cases hxy : x = y
      · subst hxy
        have hp' : xs'.Perm ys' := hp.cons_inv
        have htail := ih ys' hp' (List.pairwise_cons.mp hsx).2 (List.pairwise_cons.mp hsy).2
          (by rw [List.map_cons] at hnd; exact (List.nodup_cons.mp hnd).2)
        rw [htail]
      · exfalso
        have hxys : x ∈ y :: ys' := hp.mem_iff.mp (by simp)
        have hyxs : y ∈ x :: xs' := hp.mem_iff.mpr (by simp)
        have hx' : x ∈ ys' := by
          rcases List.mem_cons.mp hxys with h | h
          · exact absurd h hxy
          · exact h
        have hy' : y ∈ xs' := by
          rcases List.mem_cons.mp hyxs with h | h
          · exact absurd h.symm hxy
          · exact h
        have h1 : resultLe x y := (List.pairwise_cons.mp hsx).1 y hy'
        have h2 : resultLe y x := (List.pairwise_cons.mp hsy).1 x hx'
        have hid : x.id = y.id := by
          rcases h1 with h1 | ⟨h1e, h1i⟩
          · rcases h2 with h2 | ⟨h2e, _⟩
            · exact absurd h1 (lt_asymm h2)
            · exact absurd h1 (h2e ▸ lt_irrefl _)
          · rcases h2 with h2 | ⟨h2e, h2i⟩
            · exact absurd h2 (h1e ▸ lt_irrefl _)
            · exact le_antisymm h1i h2i
        have hmem : x.id ∈ xs'.map (fun r => r.id) :=
          List.mem_map.mpr ⟨y, hy', hid.symm⟩
        rw [List.map_cons] at hnd
        exact (List.nodup_cons.mp hnd).1 hmem

/-- Any member of the sorted combine-loop output originates from a
candidate and carries the 0.4/0.6 combined-score formula. -/
theorem mem_sort_buildResults (r : SearchResult) (cands : List Candidate)
    (rels : List ℚ) (maxd : ℚ)
    (hr : r ∈ List.insertionSort resultLe (buildResults cands rels maxd)) :
    ∃ c ∈ cands, r.id = c.id ∧ r.metadata = c.metadata ∧
      r.similarity_score = 1 - c.distance ∧
      r.combined_score = 0.4 * (1 - c.distance / maxd) + 0.6 * (r.relevance_score / 10) := by
  have hr2 : r ∈ buildResults cands rels maxd :=
    (List.perm_insertionSort resultLe _).mem_iff.mp hr
  unfold buildResults at hr2
  obtain ⟨p, hp, hpr⟩ := List.mem_map.mp hr2
  obtain ⟨hp1, -⟩ := List.of_mem_zip hp
  refine ⟨p.1, hp1, ?_, ?_, ?_, ?_⟩ <;> rw [← hpr] <;> simp [mkSearchResult]

/-- C3: whenever `rerank_results` returns a list for a batch of two or more
candidates, every returned result's `combined_score` is
`0.4 * (1 - distance / max_distance_in_batch) + 0.6 * (relevance_score / 10)`
for its candidate, and the list is ordered by descending combined score
with ties broken by ascending id. -/
theorem C3_rerank_combined_score_formula
    (cache : RelevanceCache) (query : String) (cands : List Candidate)
    (scorer : List String → Option (List ℚ))
    (res : List SearchResult) (cache2 : RelevanceCache) (called : Bool)
    (hlen : 2 ≤ cands.length)
    (heq : rerank_results cache query cands scorer = some (res, cache2, called)) :
    (∀ r ∈ res, ∃ c ∈ cands, r.id = c.id ∧ r.metadata = c.metadata ∧
      r.similarity_score = 1 - c.distance ∧
      r.combined_score =
        0.4 * (1 - c.distance / maxDistance cands) + 0.6 * (r.relevance_score / 10)) ∧
    res.Pairwise resultLe := by
  have finish : ∀ rels : List ℚ,
      List.insertionSort resultLe (buildResults cands rels (maxDistance cands)) = res →
      (∀ r ∈ res, ∃ c ∈ cands, r.id = c.id ∧ r.metadata = c.metadata ∧
        r.similarity_score = 1 - c.distance ∧
        r.combined_score =
          0.4 * (1 - c.distance / maxDistance cands) + 0.6 * (r.relevance_score / 10)) ∧
      res.Pairwise resultLe := by
    intro rels hres
    constructor
    · intro r hr
      rw [← hres] at hr
      exact mem_sort_buildResults r cands rels (maxDistance cands) hr
    · rw [← hres]
      exact List.sorted_insertionSort resultLe _
  by_cases hmax : maxDistance cands = 0
  · rw [rerank_zero_max_eq cache query cands scorer hlen hmax] at heq
    exact Option.noConfusion heq
  · by_cases hunc : cands.filter (isUncached cache query) = []
    · rw [rerank_all_cached_eq cache query cands scorer hlen hunc hmax] at heq
      simp only [Option.some.injEq, Prod.mk.injEq] at heq
      exact finish _ heq.1
    · rcases hsc : scorer ((cands.filter (isUncached cache query)).map
          (fun c => c.metadata.text)) with _ | scores
      · rw [rerank_scorer_failure_eq cache query cands scorer hlen hunc (Or.inl hsc) hmax]
          at heq
        simp only [Option.some.injEq, Prod.mk.injEq] at heq
        exact finish _ heq.1
      · by_cases hcnt : scores.length = (cands.filter (isUncached cache query)).length
        · rw [rerank_scorer_success_eq cache query cands scorer scores hlen hunc hsc hcnt
            hmax] at heq
          simp only [Option.some.injEq, Prod.mk.injEq] at heq
          exact finish _ heq.1
        · rw [rerank_scorer_failure_eq cache query cands scorer hlen hunc
            (Or.inr ⟨scores, hsc, hcnt⟩) hmax] at heq
          simp only [Option.some.injEq, Prod.mk.injEq] at heq
          exact finish _ heq.1

/-- C4 (amended): when the scorer raises (or its score count mismatches)
and the batch's maximum distance is nonzero, `rerank_results` still returns
a full result list, with `relevance_score = 1 - distance` for exactly the
uncached candidates, cached candidates keeping their cached scores, the
cache unchanged, and no failure propagated. -/
theorem C4_scorer_failure_fallback
    (cache : RelevanceCache) (query : String) (cands : List Candidate)
    (scorer : List String → Option (List ℚ))
    (hfail : ∀ ts : List String, scorer ts = none ∨
      ∃ l, scorer ts = some l ∧ l.length ≠ ts.length)
    (hlen : 2 ≤ cands.length)
    (hmax : maxDistance cands ≠ 0) :
    rerank_results cache query cands scorer =
      some (List.insertionSort resultLe
        (buildResults cands (fallbackScores cache query cands) (maxDistance cands)),
        cache, !(cands.filter (isUncached cache query)).isEmpty) ∧
    (List.insertionSort resultLe
      (buildResults cands (fallbackScores cache query cands) (maxDistance cands))).length =
      cands.length ∧
    (∀ r ∈ List.insertionSort resultLe
        (buildResults cands (fallbackScores cache query cands) (maxDistance cands)),
      ∃ c ∈ cands, r.id = c.id ∧ r.metadata = c.metadata ∧
        (cacheGet cache (get_cache_key query c.metadata.text) = none →
          r.relevance_score = 1 - c.distance) ∧
        (∀ v, cacheGet cache (get_cache_key query c.metadata.text) = some v →
          r.relevance_score = v)) := by
  refine ⟨?_, ?_, ?_⟩
  · by_cases hunc : cands.filter (isUncached cache query) = []
    · rw [rerank_all_cached_eq cache query cands scorer hlen hunc hmax, hunc]
      simp
    · have hbe : (cands.filter (isUncached cache query)).isEmpty = false := by
        simpa using hunc
      rcases hfail ((cands.filter (isUncached cache query)).map (fun c => c.metadata.text))
        with hnone | ⟨l, hsome, hmis⟩
      · rw [rerank_scorer_failure_eq cache query cands scorer hlen hunc (Or.inl hnone) hmax,
          hbe]
        simp
      · rw [List.length_map] at hmis
        rw [rerank_scorer_failure_eq cache query cands scorer hlen hunc
          (Or.inr ⟨l, hsome, hmis⟩) hmax, hbe]
        simp
  · rw [(List.perm_insertionSort resultLe _).length_eq]
    unfold buildResults
    rw [List.length_map, List.length_zip]
    unfold fallbackScores
    rw [List.length_map, Nat.min_self]
  · intro r hr
    have hr2 : r ∈ buildResults cands (fallbackScores cache query cands) (maxDistance cands) :=
      (List.perm_insertionSort resultLe _).mem_iff.mp hr
    have hfb : fallbackScores cache query cands = cands.map
        (fun c => match cacheGet cache (get_cache_key query c.metadata.text) with
          | some v => v
          | none => 1 - c.distance) := rfl
    rw [hfb, buildResults_map] at hr2
    obtain ⟨c, hc, hcr⟩ := List.mem_map.mp hr2
    refine ⟨c, hc, ?_, ?_, ?_, ?_⟩
    · rw [← hcr]
      rfl
    · rw [← hcr]
      rfl
    · intro hnone
      rw [← hcr]
      simp [mkSearchResult, hnone]
    · intro v hv
      rw [← hcr]
      simp [mkSearchResult, hv]

/-- The concrete two-candidate batch used by the rerank witnesses: maximum
distance `1`. -/
theorem sample_maxDistance_ne_zero :
    maxDistance [sampleCand 0 (1/2) "TA", sampleCand 1 1 "TB"] ≠ 0 := by
  have h : maxDistance [sampleCand 0 (1/2) "TA", sampleCand 1 1 "TB"] = 1 := by
    simp only [maxDistance, List.foldl_cons, List.foldl_nil, sampleCand]
    rw [max_eq_right (by norm_num)]
  rw [h]
  norm_num

/-- Witness for C3: a scored two-candidate run. -/
theorem C3_rerank_combined_score_formula_witness :
    (2 ≤ ([sampleCand 0 (1/2) "TA", sampleCand 1 1 "TB"] : List Candidate).length ∧
      rerank_results [] "q" [sampleCand 0 (1/2) "TA", sampleCand 1 1 "TB"]
          (fun _ => some [10, 0]) =
        some (List.insertionSort resultLe
          (buildResults [sampleCand 0 (1/2) "TA", sampleCand 1 1 "TB"]
            (fillScores [] "q" [sampleCand 0 (1/2) "TA", sampleCand 1 1 "TB"] [10, 0])
            (maxDistance [sampleCand 0 (1/2) "TA", sampleCand 1 1 "TB"])),
          applyPairs (newCachePairs [] "q" [sampleCand 0 (1/2) "TA", sampleCand 1 1 "TB"]
            [10, 0]) [], true)) ∧
    (List.insertionSort resultLe
      (buildResults [sampleCand 0 (1/2) "TA", sampleCand 1 1 "TB"]
        (fillScores [] "q" [sampleCand 0 (1/2) "TA", sampleCand 1 1 "TB"] [10, 0])
        (maxDistance [sampleCand 0 (1/2) "TA",
          sampleCand 1 1 "TB"]))).Pairwise resultLe := by
  have heq := rerank_scorer_success_eq [] "q" [sampleCand 0 (1/2) "TA", sampleCand 1 1 "TB"]
    (fun _ => some [10, 0]) [10, 0] (by decide) (by decide) rfl (by decide)
    sample_maxDistance_ne_zero
  refine ⟨⟨by decide, heq⟩, ?_⟩
  exact (C3_rerank_combined_score_formula [] "q"
    [sampleCand 0 (1/2) "TA", sampleCand 1 1 "TB"] (fun _ => some [10, 0]) _ _ _
    (by decide) heq).2

/-- Counterexample to C4 as stated: with both distances `0.0` the combine
loop divides by zero, so a scorer failure is not recovered into a full
result list — the call raises instead of returning. -/
theorem C4_counterexample_zero_distances :
    rerank_results [] "q" [sampleCand 0 0 "TA", sampleCand 1 0 "TB"] (fun _ => none) =
      none := by
  apply rerank_zero_max_eq [] "q" _ _ (by decide)
  simp [maxDistance, sampleCand]

/-- Witness for C4: a concrete scorer failure on a two-candidate batch with
nonzero maximum distance. -/
theorem C4_scorer_failure_fallback_witness :
    (2 ≤ ([sampleCand 0 (1/2) "TA", sampleCand 1 1 "TB"] : List Candidate).length ∧
      maxDistance [sampleCand 0 (1/2) "TA", sampleCand 1 1 "TB"] ≠ 0) ∧
    rerank_results [] "q" [sampleCand 0 (1/2) "TA", sampleCand 1 1 "TB"]
        (fun _ => none) =
      some (List.insertionSort resultLe
        (buildResults [sampleCand 0 (1/2) "TA", sampleCand 1 1 "TB"]
          (fallbackScores [] "q" [sampleCand 0 (1/2) "TA", sampleCand 1 1 "TB"])
          (maxDistance [sampleCand 0 (1/2) "TA", sampleCand 1 1 "TB"])),
        [],
        !(([sampleCand 0 (1/2) "TA", sampleCand 1 1 "TB"] : List Candidate).filter
          (isUncached [] "q")).isEmpty) := by
  refine ⟨⟨by decide, sample_maxDistance_ne_zero⟩, ?_⟩
  exact (C4_scorer_failure_fallback [] "q" [sampleCand 0 (1/2) "TA", sampleCand 1 1 "TB"]
    (fun _ => none) (fun _ => Or.inl rfl) (by decide) sample_maxDistance_ne_zero).1

/-- A rerun on the reversed batch with every candidate cached: no scorer
call, unchanged cache, and (given pairwise-distinct ids) the same sorted
output as sorting the un-reversed batch. -/
theorem rerank_reverse_all_cached (cache1 : RelevanceCache) (query : String)
    (all : List Candidate) (scorer2 : List String → Option (List ℚ))
    (hlen : 2 ≤ all.length)
    (hcached : ∀ c ∈ all, (cacheGet cache1 (get_cache_key query c.metadata.text)).isSome)
    (hmax : maxDistance all ≠ 0)
    (hids : (all.map (fun c => c.id)).Nodup) :
    rerank_results cache1 query all.reverse scorer2 =
      some (List.insertionSort resultLe
        (all.map (fun c => mkSearchResult (maxDistance all) c
          ((cacheGet cache1 (get_cache_key query c.metadata.text)).getD 0))),
        cache1, false) := by
  have hne : all ≠ [] := by
    intro h
    rw [h] at hlen
    simp at hlen
  have hnerev : all.reverse ≠ [] := by simpa using hne
  have hlen2 : 2 ≤ all.reverse.length := by simpa using hlen
  have hmaxeq : maxDistance all.reverse = maxDistance all :=
    maxDistance_perm all.reverse all (List.reverse_perm all) hnerev
  have hunc2 : all.reverse.filter (isUncached cache1 query) = [] := by
    rw [List.filter_eq_nil_iff]
    intro c hc
    obtain ⟨v, hv⟩ := Option.isSome_iff_exists.mp (hcached c (List.mem_reverse.mp hc))
    simp [isUncached, hv]
  have hmax2 : maxDistance all.reverse ≠ 0 := by
    rw [hmaxeq]
    exact hmax
  rw [rerank_all_cached_eq cache1 query all.reverse scorer2 hlen2 hunc2 hmax2]
  have hfb2 : fallbackScores cache1 query all.reverse = all.reverse.map
      (fun c => (cacheGet cache1 (get_cache_key query c.metadata.text)).getD 0) := by
    unfold fallbackScores
    apply List.map_congr_left
    intro c hc
    obtain ⟨v, hv⟩ := Option.isSome_iff_exists.mp (hcached c (List.mem_reverse.mp hc))
    simp [hv]
  rw [hfb2, buildResults_map, hmaxeq]
  have hsorteq : List.insertionSort resultLe
      (all.reverse.map (fun c => mkSearchResult (maxDistance all) c
        ((cacheGet cache1 (get_cache_key query c.metadata.text)).getD 0))) =
      List.insertionSort resultLe
      (all.map (fun c => mkSearchResult (maxDistance all) c
        ((cacheGet cache1 (get_cache_key query c.metadata.text)).getD 0))) := by
    apply sorted_unique_by_ids
    · exact (List.perm_insertionSort _ _).trans
        (((List.reverse_perm all).map _).trans (List.perm_insertionSort _ _).symm)
    · exact List.sorted_insertionSort _ _
    · exact List.sorted_insertionSort _ _
    · have hp1 := (List.perm_insertionSort resultLe
        (all.reverse.map (fun c => mkSearchResult (maxDistance all) c
          ((cacheGet cache1 (get_cache_key query c.metadata.text)).getD 0)))).map
        (fun r => r.id)
      have e2 : (all.reverse.map (fun c => mkSearchResult (maxDistance all) c
          ((cacheGet cache1 (get_cache_key query c.metadata.text)).getD 0))).map
          (fun r => r.id) = all.reverse.map (fun c => c.id) := by
        rw [List.map_map]
        rfl
      rw [e2] at hp1
      have hp3 : (all.reverse.map (fun c => c.id)).Perm (all.map (fun c => c.id)) :=
        (List.reverse_perm all).map _
      exact ((hp1.trans hp3).nodup_iff).mpr hids
  rw [hsorteq]

/-- C9 (amended): provided the candidates carry pairwise-distinct ids and
pairwise-distinct cache keys, reranking the same (query, candidate set) a
second time with the candidates reversed and every relevance score cached
by the first run returns the identical result list, issues no scorer call,
and leaves the cache unchanged. -/
theorem C9_cache_consistency
    (cache0 : RelevanceCache) (query : String) (cands : List Candidate)
    (scorer scorer2 : List String → Option (List ℚ))
    (res1 : List SearchResult) (cache1 : RelevanceCache) (called1 : Bool)
    (h1 : rerank_results cache0 query cands scorer = some (res1, cache1, called1))
    (hcached : ∀ c ∈ cands, (cacheGet cache1 (get_cache_key query c.metadata.text)).isSome)
    (hids : (cands.map (fun c => c.id)).Nodup)
    (hkeys : (cands.map (fun c => get_cache_key query c.metadata.text)).Nodup) :
    rerank_results cache1 query cands.reverse scorer2 = some (res1, cache1, false) := by
  rcases cands with _ | ⟨c0, _ | ⟨c1, rest⟩⟩
  · simp only [rerank_results, Option.some.injEq, Prod.mk.injEq] at h1
    obtain ⟨h1a, -, -⟩ := h1
    simp only [List.reverse_nil, rerank_results, ← h1a]
  · simp only [rerank_results, Option.some.injEq, Prod.mk.injEq] at h1
    obtain ⟨h1a, -, -⟩ := h1
    simp only [List.reverse_cons, List.reverse_nil, List.nil_append, rerank_results, ← h1a]
  · have hlen : 2 ≤ (c0 :: c1 :: rest).length := by simp
    by_cases hmax : maxDistance (c0 :: c1 :: rest) = 0
    · rw [rerank_zero_max_eq _ _ _ _ hlen hmax] at h1
      exact Option.noConfusion h1
    have hcontra : (c0 :: c1 :: rest).filter (isUncached cache0 query) ≠ [] →
        cache0 = cache1 → False := by
      intro hunc hcache
      obtain ⟨c, hc⟩ := List.exists_mem_of_ne_nil _ hunc
      have hcm := List.mem_filter.mp hc
      have hnone : cacheGet cache0 (get_cache_key query c.metadata.text) = none := by
        have h2 := hcm.2
        simp only [isUncached] at h2
        exact Option.isNone_iff_eq_none.mp h2
      have h3 := hcached c hcm.1
      rw [← hcache, hnone] at h3
      simp at h3
    have hres1 : res1 = List.insertionSort resultLe
        ((c0 :: c1 :: rest).map (fun c => mkSearchResult (maxDistance (c0 :: c1 :: rest)) c
          ((cacheGet cache1 (get_cache_key query c.metadata.text)).getD 0))) := by
      by_cases hunc : (c0 :: c1 :: rest).filter (isUncached cache0 query) = []
      · rw [rerank_all_cached_eq _ _ _ _ hlen hunc hmax] at h1
        simp only [Option.some.injEq, Prod.mk.injEq] at h1
        obtain ⟨hres, hcache, -⟩ := h1
        have hfb : fallbackScores cache0 query (c0 :: c1 :: rest) =
            (c0 :: c1 :: rest).map (fun c =>
              (cacheGet cache1 (get_cache_key query c.metadata.text)).getD 0) := by
          unfold fallbackScores
          apply List.map_congr_left
          intro c hc
          obtain ⟨v, hv⟩ := Option.isSome_iff_exists.mp (hcached c hc)
          rw [hcache]
          simp [hv]
        rw [← hres, hfb, buildResults_map]
      · rcases hsc : scorer (((c0 :: c1 :: rest).filter (isUncached cache0 query)).map
            (fun c => c.metadata.text)) with _ | scores
        · rw [rerank_scorer_failure_eq _ _ _ _ hlen hunc (Or.inl hsc) hmax] at h1
          simp only [Option.some.injEq, Prod.mk.injEq] at h1
          exact absurd h1.2.1 (fun hcache => hcontra hunc hcache)
        · by_cases hcnt : scores.length =
              ((c0 :: c1 :: rest).filter (isUncached cache0 query)).length
          · rw [rerank_scorer_success_eq _ _ _ _ scores hlen hunc hsc hcnt hmax] at h1
            simp only [Option.some.injEq, Prod.mk.injEq] at h1
            obtain ⟨hres, hcache, -⟩ := h1
            have hfill := fillScores_eq_map cache0 query (c0 :: c1 :: rest) scores cache0
              (fun c _ => rfl) hkeys hcnt
            rw [hcache] at hfill
            rw [← hres, hfill, buildResults_map]
          · rw [rerank_scorer_failure_eq _ _ _ _ hlen hunc
              (Or.inr ⟨scores, hsc, hcnt⟩) hmax] at h1
            simp only [Option.some.injEq, Prod.mk.injEq] at h1
            exact absurd h1.2.1 (fun hcache => hcontra hunc hcache)
    rw [rerank_reverse_all_cached cache1 query (c0 :: c1 :: rest) scorer2 hlen hcached hmax
      hids, hres1]

/-- Witness for C9: a scored first run over two distinct-text candidates,
then the reversed rerun against the populated cache. -/
theorem C9_cache_consistency_witness :
    (rerank_results [] "q" [sampleCand 0 (1/2) "TA", sampleCand 1 1 "TB"]
        (fun _ => some [10, 0]) =
      some (List.insertionSort resultLe
          (buildResults [sampleCand 0 (1/2) "TA", sampleCand 1 1 "TB"]
            (fillScores [] "q" [sampleCand 0 (1/2) "TA", sampleCand 1 1 "TB"] [10, 0])
            (maxDistance [sampleCand 0 (1/2) "TA", sampleCand 1 1 "TB"])),
        applyPairs (newCachePairs [] "q" [sampleCand 0 (1/2) "TA", sampleCand 1 1 "TB"]
          [10, 0]) [], true) ∧
      (([sampleCand 0 (1/2) "TA", sampleCand 1 1 "TB"] : List Candidate).all (fun c =>
        (cacheGet (applyPairs (newCachePairs [] "q"
            [sampleCand 0 (1/2) "TA", sampleCand 1 1 "TB"] [10, 0]) [])
          (get_cache_key "q" c.metadata.text)).isSome)) = true ∧
      (([sampleCand 0 (1/2) "TA", sampleCand 1 1 "TB"] : List Candidate).map
        (fun c => c.id)).Nodup ∧
      (([sampleCand 0 (1/2) "TA", sampleCand 1 1 "TB"] : List Candidate).map
        (fun c => get_cache_key "q" c.metadata.text)).Nodup) ∧
    rerank_results (applyPairs (newCachePairs [] "q"
        [sampleCand 0 (1/2) "TA", sampleCand 1 1 "TB"] [10, 0]) []) "q"
      ([sampleCand 0 (1/2) "TA", sampleCand 1 1 "TB"] : List Candidate).reverse
      (fun _ => none) =
      some (List.insertionSort resultLe
          (buildResults [sampleCand 0 (1/2) "TA", sampleCand 1 1 "TB"]
            (fillScores [] "q" [sampleCand 0 (1/2) "TA", sampleCand 1 1 "TB"] [10, 0])
            (maxDistance [sampleCand 0 (1/2) "TA", sampleCand 1 1 "TB"])),
        applyPairs (newCachePairs [] "q" [sampleCand 0 (1/2) "TA", sampleCand 1 1 "TB"]
          [10, 0]) [], false) := by
  have h1 := rerank_scorer_success_eq [] "q" [sampleCand 0 (1/2) "TA", sampleCand 1 1 "TB"]
    (fun _ => some [10, 0]) [10, 0] (by decide) (by decide) rfl (by decide)
    sample_maxDistance_ne_zero
  refine ⟨⟨h1, by decide, by decide, by decide⟩, ?_⟩
  exact C9_cache_consistency [] "q" [sampleCand 0 (1/2) "TA", sampleCand 1 1 "TB"]
    (fun _ => some [10, 0]) (fun _ => none) _ _ _ h1 (by decide) (by decide) (by decide)

/-- Counterexample to C9 as stated: two candidates share the same chunk
text, so the cache key collides; the first run caches only the second
candidate's score, and the reversed rerun — with every relevance score
cached — produces the opposite ordering (`[1, 0]` instead of `[0, 1]`)
while indeed issuing no scorer call. -/
theorem C9_counterexample_duplicate_texts :
    (rerank_results [] "q" [sampleCand 0 (1/2) "T", sampleCand 1 (1/4) "T"]
        (fun _ => some [10, 0])).map (fun t => t.1.map (fun r => r.id)) = some [0, 1] ∧
    (rerank_results [] "q" [sampleCand 0 (1/2) "T", sampleCand 1 (1/4) "T"]
        (fun _ => some [10, 0])).map (fun t => t.2.1) =
      some [("q|||T", (0 : ℚ)), ("q|||T", 10)] ∧
    (([sampleCand 0 (1/2) "T", sampleCand 1 (1/4) "T"] : List Candidate).all (fun c =>
      (cacheGet [("q|||T", (0 : ℚ)), ("q|||T", 10)]
        (get_cache_key "q" c.metadata.text)).isSome)) = true ∧
    (rerank_results [("q|||T", (0 : ℚ)), ("q|||T", 10)] "q"
        ([sampleCand 0 (1/2) "T", sampleCand 1 (1/4) "T"] : List Candidate).reverse
        (fun _ => some [10, 0])).map (fun t => t.1.map (fun r => r.id)) = some [1, 0] ∧
    ([0, 1] : List Nat) ≠ [1, 0] := by
  have hkey : get_cache_key "q" "T" = "q|||T" := by decide
  have hmaxd : maxDistance [sampleCand 0 (1/2) "T", sampleCand 1 (1/4) "T"] = 1/2 := by
    simp only [maxDistance, List.foldl_cons, List.foldl_nil, sampleCand]
    rw [max_eq_left (by norm_num)]
  have h1 := rerank_scorer_success_eq [] "q"
    [sampleCand 0 (1/2) "T", sampleCand 1 (1/4) "T"]
    (fun _ => some [10, 0]) [10, 0] (by decide) (by decide) rfl (by decide)
    (by rw [hmaxd]; norm_num)
  refine ⟨?_, ?_, by decide, ?_, by decide⟩
  · rw [h1]
    simp only [Option.map]
    rw [hmaxd]
    norm_num [fillScores, cacheGet, buildResults, mkSearchResult, sampleCand, sampleMeta,
      List.insertionSort, List.orderedInsert, resultLe]
  · rw [h1]
    simp only [Option.map]
    simp [newCachePairs, cacheGet, applyPairs, sampleCand, sampleMeta, get_cache_key,
      pyLower, pyStrip]
  · have hunc2 : (([sampleCand 0 (1/2) "T", sampleCand 1 (1/4) "T"] :
        List Candidate).reverse).filter
        (isUncached [("q|||T", (0 : ℚ)), ("q|||T", 10)] "q") = [] := by decide
    have hmaxd2 : maxDistance (([sampleCand 0 (1/2) "T", sampleCand 1 (1/4) "T"] :
        List Candidate).reverse) = 1/2 := by
      simp only [List.reverse_cons, List.reverse_nil, List.nil_append, List.singleton_append,
        maxDistance, List.foldl_cons, List.foldl_nil, sampleCand]
      rw [max_eq_right (by norm_num)]
    rw [rerank_all_cached_eq [("q|||T", (0 : ℚ)), ("q|||T", 10)] "q" _ _ (by decide) hunc2
      (by rw [hmaxd2]; norm_num)]
    simp only [Option.map]
    rw [hmaxd2]
    norm_num [fallbackScores, cacheGet, buildResults, mkSearchResult, sampleCand, sampleMeta,
      hkey, List.insertionSort, List.orderedInsert, resultLe]
